import Mathlib

/-!
Verification of the request-construction and response-decoding layer of the
haveibeenpwnd client (src/clientv2.rs).

The Rust code is shallowly embedded:
* serde_json values become the inductive type `HIBP.Value`; a `serde_json::Map`
  (a `BTreeMap<String, Value>`) becomes a key-sorted association list built by
  `HIBP.objInsert`, and `BTreeMap::get` becomes `List.lookup`.
* fallible Rust functions returning `Result<T>` become `Except DecodeErr T`;
  every `format!`-built error message is represented by a `DecodeErr`
  constructor carrying exactly the data interpolated into the message.
* `serde_json::from_str` is modelled by the executable parser `HIBP.jsonParse`.
* the external `url` crate calls (`Url::parse`, `query_pairs_mut().append_pair`)
  are modelled by `HIBP.urlParseTail`, `HIBP.appendPair` and `HIBP.serializeUrl`
  following the WHATWG URL rules that crate implements for a special (https)
  scheme: tab and newline removal, trailing control and space trimming, first
  hash starts the fragment, first question mark before it starts the query,
  slash and backslash separate path segments, dot segments are normalized, and
  each part is percent-encoded with its own encode set.
-/

namespace HIBP

/-- Model of a serde_json number: integers that fit in u64 or i64 stay
integers, everything else (fractions, exponents, out-of-range literals)
becomes a float, of which we keep only the raw lexeme. -/
inductive JNum where
  | int (i : Int)
  | float (raw : String)
deriving DecidableEq

/-- Model of serde_json `Value`. Objects are key-sorted association lists,
mirroring `BTreeMap<String, Value>`. -/
inductive Value where
  | null
  | bool (b : Bool)
  | num (n : JNum)
  | str (s : String)
  | arr (elems : List Value)
  | obj (fields : List (String × Value))

/-- The embedding of `BTreeMap<String, Value>`. -/
abbrev JObj := List (String × Value)

/-- Lexicographic order on character lists by code point; for valid
Unicode this coincides with the UTF-8 byte order a Rust BTreeMap uses on
String keys. -/
def charListLt : List Char → List Char → Bool
  | [], [] => false
  | [], _ :: _ => true
  | _ :: _, [] => false
  | a :: as, b :: bs =>
    if a.toNat < b.toNat then true
    else if b.toNat < a.toNat then false
    else charListLt as bs

/-- String order of the BTreeMap keys. -/
def strLt (a b : String) : Bool :=
  charListLt a.data b.data

/-- `BTreeMap::insert`: keep keys sorted, replace an existing binding. -/
def objInsert : JObj → String → Value → JObj
  | [], k, v => [(k, v)]
  | (k0, v0) :: rest, k, v =>
    if strLt k k0 then (k, v) :: (k0, v0) :: rest
    else if k == k0 then (k, v) :: rest
    else (k0, v0) :: objInsert rest k v

/-- serde `Value::as_str`. -/
def Value.asStr : Value → Option String
  | .str s => some s
  | _ => none

/-- serde `Value::as_array`. -/
def Value.asArr : Value → Option (List Value)
  | .arr l => some l
  | _ => none

/-- serde `Value::as_bool`. -/
def Value.asBool : Value → Option Bool
  | .bool b => some b
  | _ => none

/-- serde `Value::as_u64`: only a non-negative integer in u64 range. -/
def Value.asU64 : Value → Option Nat
  | .num (.int i) => if 0 ≤ i ∧ i < 2 ^ 64 then some i.toNat else none
  | _ => none

/-- serde `Value::as_object`. -/
def Value.asObject : Value → Option JObj
  | .obj m => some m
  | _ => none

/-- The `Breach` record of clientv2.rs, fields in declaration order. -/
structure Breach where
  name : String
  title : Option String
  domain : Option String
  breach_date : Option String
  added_date : Option String
  pwn_count : Option Nat
  description : Option String
  data_classes : Option (List String)
  is_verified : Option Bool
  is_sensitive : Option Bool
  is_retired : Option Bool
deriving DecidableEq

/-- The `Paste` record of clientv2.rs. -/
structure Paste where
  source : String
  id : String
  title : Option String
  date : Option String
  email_count : Nat
deriving DecidableEq

/-- The decode errors of clientv2.rs. Each constructor stands for one
`format!` call site and carries exactly the data interpolated into that
message, so the constructor records what the message identifies. -/
inductive DecodeErr where
  /-- get_serde_string: the message holds the offending value, no field name. -/
  | notString (v : Value)
  /-- get_serde_array: the message holds the offending value, no field name. -/
  | notArray (v : Value)
  /-- get_serde_u64: the message holds the offending value, no field name. -/
  | notU64 (v : Value)
  /-- get_serde_bool: the message holds the offending value, no field name. -/
  | notBool (v : Value)
  /-- get_or_err: the message holds the field name, no value. -/
  | missingField (name : String)
  /-- breaches_from_str and pastes_from_str: an array element is not an object. -/
  | innerNotObject (elems : List Value)
  /-- breaches_from_str and pastes_from_str: improperly formatted response. -/
  | badShape (s : String)
  /-- breaches_from_str: chain_err around the serde parse failure. -/
  | parseBreachesFailed (s : String)
  /-- pastes_from_str: chain_err around the serde parse failure. -/
  | parsePastesFailed (s : String)
  /-- DataClassRequest::send: chain_err around the serde parse failure. -/
  | parseDataClassesFailed (s : String)
  /-- DataClassRequest::send: top level is not an array. -/
  | dataClassNotArray (v : Value)

/-- The field name the error message identifies, if any. -/
def DecodeErr.fieldName? : DecodeErr → Option String
  | .missingField n => some n
  | _ => none

/-- The offending JSON value the error message identifies, if any. -/
def DecodeErr.offendingValue? : DecodeErr → Option Value
  | .notString v => some v
  | .notArray v => some v
  | .notU64 v => some v
  | .notBool v => some v
  | .dataClassNotArray v => some v
  | _ => none

/-- clientv2.rs `get_serde_string`. -/
def get_serde_string (v : Value) : Except DecodeErr String :=
  match v.asStr with
  | some s => .ok s
  | none => .error (.notString v)

/-- clientv2.rs `get_serde_array`. -/
def get_serde_array (v : Value) : Except DecodeErr (List Value) :=
  match v.asArr with
  | some l => .ok l
  | none => .error (.notArray v)

/-- clientv2.rs `get_serde_u64`. -/
def get_serde_u64 (v : Value) : Except DecodeErr Nat :=
  match v.asU64 with
  | some n => .ok n
  | none => .error (.notU64 v)

/-- clientv2.rs `get_serde_bool`. -/
def get_serde_bool (v : Value) : Except DecodeErr Bool :=
  match v.asBool with
  | some b => .ok b
  | none => .error (.notBool v)

/-- clientv2.rs `get_or_err`. -/
def get_or_err (name : String) (m : JObj) : Except DecodeErr Value :=
  match List.lookup name m with
  | some v => .ok v
  | none => .error (.missingField name)

/-- The optional-field pattern of parse_breach:
`obj.get(k).map(f).map_or(Ok(None), |t| t.map(Some))`. -/
def optField (f : Value → Except DecodeErr α) (m : JObj) (key : String) :
    Except DecodeErr (Option α) :=
  match List.lookup key m with
  | none => .ok none
  | some v => (f v).map some

/-- Rust `collect::<Result<Vec<_>>>` over a mapped iterator: stop at the
first error. -/
def mapE (f : α → Except DecodeErr β) : List α → Except DecodeErr (List β)
  | [] => .ok []
  | x :: xs => do
    let y ← f x
    let ys ← mapE f xs
    pure (y :: ys)

/-- Rust `collect::<Option<Vec<_>>>` over a mapped iterator. -/
def mapO (f : α → Option β) : List α → Option (List β)
  | [] => some []
  | x :: xs => do
    let y ← f x
    let ys ← mapO f xs
    pure (y :: ys)

/-- clientv2.rs `parse_breach`, fields decoded in struct-literal order. -/
def parse_breach (m : JObj) : Except DecodeErr Breach := do
  let name ← get_serde_string (← get_or_err "Name" m)
  let title ← optField get_serde_string m "Title"
  let domain ← optField get_serde_string m "Domain"
  let breach_date ← optField get_serde_string m "BreachDate"
  let added_date ← optField get_serde_string m "AddedDate"
  let pwn_count ← optField get_serde_u64 m "PwnCount"
  let description ← optField get_serde_string m "Description"
  let data_classes ← optField
    (fun dc => do
      let v ← get_serde_array dc
      mapE get_serde_string v) m "DataClasses"
  let is_verified ← optField get_serde_bool m "IsVerified"
  let is_sensitive ← optField get_serde_bool m "IsSensitive"
  let is_retired ← optField get_serde_bool m "IsRetired"
  pure ⟨name, title, domain, breach_date, added_date, pwn_count, description,
    data_classes, is_verified, is_sensitive, is_retired⟩

/-- clientv2.rs `parse_paste`. `Title` and `Date` are fetched with
`get_or_err` (so they must be present) but converted with
`.as_str().map(String::from)` (so a non-string becomes `None`). -/
def parse_paste (m : JObj) : Except DecodeErr Paste := do
  let source ← get_serde_string (← get_or_err "Source" m)
  let id ← get_serde_string (← get_or_err "Id" m)
  let titleV ← get_or_err "Title" m
  let dateV ← get_or_err "Date" m
  let email_count ← get_serde_u64 (← get_or_err "EmailCount" m)
  pure ⟨source, id, titleV.asStr, dateV.asStr, email_count⟩

/-- The shape dispatch of `breaches_from_str` after the serde parse; `s` is
the original body, used in the improperly-formatted error. -/
def breachesFromValue (s : String) (data : Value) :
    Except DecodeErr (List Breach) :=
  match data.asArr with
  | some elems =>
    match mapO Value.asObject elems with
    | none => .error (.innerNotObject elems)
    | some objs => mapE parse_breach objs
  | none =>
    match data.asObject with
    | some m => (parse_breach m).map (fun b => [b])
    | none => .error (.badShape s)

/-- The shape dispatch of `pastes_from_str`: only a top-level array is
accepted. -/
def pastesFromValue (s : String) (data : Value) :
    Except DecodeErr (List Paste) :=
  match data.asArr with
  | some elems =>
    match mapO Value.asObject elems with
    | none => .error (.innerNotObject elems)
    | some objs => mapE parse_paste objs
  | none => .error (.badShape s)

/-- The data-class decoding in `DataClassRequest::send` after the serde
parse: `data.as_array().map(collect get_serde_string).unwrap_or(Err ...)`. -/
def dataClassesFromValue (data : Value) : Except DecodeErr (List String) :=
  match data.asArr with
  | some d => mapE get_serde_string d
  | none => .error (.dataClassNotArray data)

/-- JSON whitespace skipping (space, tab, line feed, carriage return). -/
def skipWs : List Char → List Char
  | [] => []
  | c :: cs =>
    if c = ' ' ∨ c = '\t' ∨ c = '\n' ∨ c = '\r' then skipWs cs else c :: cs

/-- Value of a hexadecimal digit. -/
def hexVal (c : Char) : Option Nat :=
  if '0' ≤ c ∧ c ≤ '9' then some (c.toNat - 48)
  else if 'a' ≤ c ∧ c ≤ 'f' then some (c.toNat - 87)
  else if 'A' ≤ c ∧ c ≤ 'F' then some (c.toNat - 55)
  else none

/-- JSON string literal body: characters after the opening quote, up to and
consuming the closing quote. Control characters are rejected, the JSON
escapes are interpreted, and \u surrogate pairs are combined; lone
surrogates are rejected, as serde does in strict mode. -/
def parseStringAux : Nat → List Char → List Char → Option (String × List Char)
  | 0, _, _ => none
  | Nat.succ fuel, acc, cs =>
    match cs with
    | [] => none
    | '\"' :: rest => some (String.mk acc.reverse, rest)
    | '\\' :: esc =>
      match esc with
      | '\"' :: r => parseStringAux fuel ('\"' :: acc) r
      | '\\' :: r => parseStringAux fuel ('\\' :: acc) r
      | '/' :: r => parseStringAux fuel ('/' :: acc) r
      | 'b' :: r => parseStringAux fuel (Char.ofNat 8 :: acc) r
      | 'f' :: r => parseStringAux fuel (Char.ofNat 12 :: acc) r
      | 'n' :: r => parseStringAux fuel ('\n' :: acc) r
      | 'r' :: r => parseStringAux fuel ('\r' :: acc) r
      | 't' :: r => parseStringAux fuel ('\t' :: acc) r
      | 'u' :: h1 :: h2 :: h3 :: h4 :: r =>
        match hexVal h1, hexVal h2, hexVal h3, hexVal h4 with
        | some a, some b, some c, some d =>
          let n := a * 4096 + b * 256 + c * 16 + d
          if 0xD800 ≤ n ∧ n ≤ 0xDBFF then
            match r with
            | '\\' :: 'u' :: g1 :: g2 :: g3 :: g4 :: r2 =>
              match hexVal g1, hexVal g2, hexVal g3, hexVal g4 with
              | some a2, some b2, some c2, some d2 =>
                let low := a2 * 4096 + b2 * 256 + c2 * 16 + d2
                if 0xDC00 ≤ low ∧ low ≤ 0xDFFF then
                  let code := 0x10000 + (n - 0xD800) * 1024 + (low - 0xDC00)
                  parseStringAux fuel (Char.ofNat code :: acc) r2
                else none
              | _, _, _, _ => none
            | _ => none
          else if 0xDC00 ≤ n ∧ n ≤ 0xDFFF then none
          else parseStringAux fuel (Char.ofNat n :: acc) r
        | _, _, _, _ => none
      | _ => none
    | c :: rest =>
      if c.toNat < 0x20 then none else parseStringAux fuel (c :: acc) rest

/-- Digits to a natural number. -/
def digitsToNat (ds : List Char) : Nat :=
  ds.foldl (fun n c => n * 10 + (c.toNat - 48)) 0

/-- Exponent marker followed by optional sign and mandatory digits. -/
def parseExpTail (e : Char) (r : List Char) : Option (List Char × List Char) :=
  let (sgn, r1) :=
    match r with
    | '+' :: r2 => (['+'], r2)
    | '-' :: r2 => (['-'], r2)
    | _ => (([] : List Char), r)
  let ds := r1.takeWhile Char.isDigit
  if ds = [] then none
  else some (e :: sgn ++ ds, r1.dropWhile Char.isDigit)

/-- Optional exponent part of a JSON number. Returns the consumed lexeme and
the rest; `none` means a malformed exponent. -/
def parseExpPart (cs : List Char) : Option (List Char × List Char) :=
  match cs with
  | 'e' :: r => parseExpTail 'e' r
  | 'E' :: r => parseExpTail 'E' r
  | _ => some ([], cs)

/-- JSON number literal, following serde_json: no leading zeros, an integer
that fits u64 (or i64 when negative) stays an integer, everything else is a
float. -/
def parseNumber (cs : List Char) : Option (Value × List Char) :=
  let (sgn, cs1) :=
    match cs with
    | '-' :: r => (true, r)
    | _ => (false, cs)
  let ds := cs1.takeWhile Char.isDigit
  let r1 := cs1.dropWhile Char.isDigit
  if ds = [] then none
  else if 1 < ds.length ∧ ds.headD 'x' = '0' then none
  else
    let sgnChars : List Char := if sgn then ['-'] else []
    match r1 with
    | '.' :: r2 =>
      let fs := r2.takeWhile Char.isDigit
      if fs = [] then none
      else
        match parseExpPart (r2.dropWhile Char.isDigit) with
        | none => none
        | some (ec, r3) =>
          some (.num (.float (String.mk (sgnChars ++ ds ++ '.' :: fs ++ ec))), r3)
    | _ =>
      match parseExpPart r1 with
      | none => none
      | some ([], r3) =>
        let i : Int := if sgn then -(digitsToNat ds : Int) else (digitsToNat ds : Int)
        if sgn ∧ i < -(2 ^ 63) then some (.num (.float (String.mk (sgnChars ++ ds))), r3)
        else if ¬sgn ∧ (2 ^ 64 : Int) ≤ i then some (.num (.float (String.mk ds)), r3)
        else some (.num (.int i), r3)
      | some (ec, r3) =>
        some (.num (.float (String.mk (sgnChars ++ ds ++ ec))), r3)

/-- The pending job of the recursive-descent parser: a value, the elements
of an array, or the fields of an object (with the map built so far). -/
inductive PJob where
  | val (cs : List Char)
  | elems (cs : List Char)
  | fields (cs : List Char) (acc : JObj)

/-- The result of one parser job. -/
inductive PRes where
  | val (v : Value) (rest : List Char)
  | elems (vs : List Value) (rest : List Char)
  | fields (m : JObj) (rest : List Char)

/-- JSON recursive descent, fuel-based and structurally recursive on the
fuel so that it reduces definitionally. The job input must start at a
non-whitespace character. Object fields are inserted into the sorted map
as a BTreeMap would (a duplicate key keeps the last value). -/
def parseCore : Nat → PJob → Option PRes
  | 0, _ => none
  | Nat.succ fuel, .val cs =>
    match cs with
    | 'n' :: 'u' :: 'l' :: 'l' :: rest => some (.val .null rest)
    | 't' :: 'r' :: 'u' :: 'e' :: rest => some (.val (.bool true) rest)
    | 'f' :: 'a' :: 'l' :: 's' :: 'e' :: rest => some (.val (.bool false) rest)
    | '\"' :: rest =>
      match parseStringAux (rest.length + 1) [] rest with
      | some (s, r) => some (.val (.str s) r)
      | none => none
    | '[' :: rest =>
      match skipWs rest with
      | ']' :: r2 => some (.val (.arr []) r2)
      | r1 =>
        match parseCore fuel (.elems r1) with
        | some (.elems vs r2) => some (.val (.arr vs) r2)
        | _ => none
    | '\x7b' :: rest =>
      match skipWs rest with
      | '\x7d' :: r2 => some (.val (.obj []) r2)
      | r1 =>
        match parseCore fuel (.fields r1 []) with
        | some (.fields m r2) => some (.val (.obj m) r2)
        | _ => none
    | _ =>
      match parseNumber cs with
      | some (v, r) => some (.val v r)
      | none => none
  | Nat.succ fuel, .elems cs =>
    match parseCore fuel (.val cs) with
    | some (.val v r) =>
      (match skipWs r with
       | ',' :: r2 =>
         match parseCore fuel (.elems (skipWs r2)) with
         | some (.elems vs r3) => some (.elems (v :: vs) r3)
         | _ => none
       | ']' :: r2 => some (.elems [v] r2)
       | _ => none)
    | _ => none
  | Nat.succ fuel, .fields cs acc =>
    match cs with
    | '\"' :: rest =>
      match parseStringAux (rest.length + 1) [] rest with
      | none => none
      | some (k, r) =>
        match skipWs r with
        | ':' :: r2 =>
          match parseCore fuel (.val (skipWs r2)) with
          | some (.val v r3) =>
            (match skipWs r3 with
             | ',' :: r4 => parseCore fuel (.fields (skipWs r4) (objInsert acc k v))
             | '\x7d' :: r4 => some (.fields (objInsert acc k v) r4)
             | _ => none)
          | _ => none
        | _ => none
    | _ => none

/-- One JSON value starting at a non-whitespace character. -/
def parseValueF (fuel : Nat) (cs : List Char) : Option (Value × List Char) :=
  match parseCore fuel (.val cs) with
  | some (.val v r) => some (v, r)
  | _ => none

/-- Model of `serde_json::from_str::<Value>`: parse one value and require
only whitespace to remain. The empty string fails with no value parsed. -/
def jsonParse (s : String) : Option Value :=
  match parseValueF (s.data.length * 4 + 8) (skipWs s.data) with
  | some (v, rest) => if skipWs rest = [] then some v else none
  | none => none

/-- clientv2.rs `breaches_from_str`. -/
def breaches_from_str (s : String) : Except DecodeErr (List Breach) :=
  match jsonParse s with
  | none => .error (.parseBreachesFailed s)
  | some data => breachesFromValue s data

/-- clientv2.rs `pastes_from_str`. -/
def pastes_from_str (s : String) : Except DecodeErr (List Paste) :=
  match jsonParse s with
  | none => .error (.parsePastesFailed s)
  | some data => pastesFromValue s data

/-- The body handling of `PasteRequest::send` (clientv2.rs lines 415-421):
an empty body short-circuits to an empty vector before any JSON parsing. -/
def PasteRequest.decode_body (r : String) : Except DecodeErr (List Paste) :=
  if r.data = [] then .ok [] else pastes_from_str r

/-- The body handling of `DataClassRequest::send`: serde parse, then the
array-of-strings projection. -/
def DataClassRequest.decode_body (r : String) : Except DecodeErr (List String) :=
  match jsonParse r with
  | none => .error (.parseDataClassesFailed r)
  | some data => dataClassesFromValue data

/-! ## Model of the url crate

`AccountBreachRequest::build_url` and `PasteRequest::build_url` concatenate
the raw account onto a fixed https base and hand the string to `Url::parse`
(`Url::from_str`). The model below reproduces what that parse does to the
part after the fixed base, and what `query_pairs_mut().append_pair` and
serialization then produce. -/

/-- A parsed URL on the fixed host: percent-encoded path segments, and the
raw (already percent-encoded) query and fragment strings. -/
structure UrlRec where
  segments : List (List Char)
  query : Option (List Char)
  fragment : Option (List Char)
deriving DecidableEq

/-- Split at the first occurrence of `sep`; the second component tells
whether the separator occurred. -/
def splitFirst (sep : Char) : List Char → List Char × Option (List Char)
  | [] => ([], none)
  | c :: cs =>
    if c = sep then ([], some cs)
    else
      let (a, b) := splitFirst sep cs
      (c :: a, b)

/-- Split on every occurrence of `sep` (used for ampersands in a query). -/
def splitChar (sep : Char) : List Char → List (List Char)
  | [] => [[]]
  | c :: cs =>
    if c = sep then [] :: splitChar sep cs
    else
      match splitChar sep cs with
      | s :: ss => (c :: s) :: ss
      | [] => [[c]]

/-- Split a path on the segment separators of a special scheme: slash and
backslash. -/
def splitSeps : List Char → List (List Char)
  | [] => [[]]
  | c :: cs =>
    if c = '/' ∨ c = '\\' then [] :: splitSeps cs
    else
      match splitSeps cs with
      | s :: ss => (c :: s) :: ss
      | [] => [[c]]

/-- Drop trailing C0 controls and space, as the URL parser trims its input. -/
def trimTrailing (cs : List Char) : List Char :=
  (cs.reverse.dropWhile (fun c => c.toNat ≤ 0x20)).reverse

/-- UTF-8 bytes of a character. -/
def utf8Bytes (c : Char) : List Nat :=
  let n := c.toNat
  if n < 0x80 then [n]
  else if n < 0x800 then [0xC0 + n / 0x40, 0x80 + n % 0x40]
  else if n < 0x10000 then
    [0xE0 + n / 0x1000, 0x80 + n / 0x40 % 0x40, 0x80 + n % 0x40]
  else
    [0xF0 + n / 0x40000, 0x80 + n / 0x1000 % 0x40, 0x80 + n / 0x40 % 0x40,
      0x80 + n % 0x40]

/-- Uppercase hexadecimal digit. -/
def hexChar (n : Nat) : Char :=
  List.getD ("0123456789ABCDEF".data) n '0'

/-- Percent-encoding of one byte. -/
def pctEncode (b : Nat) : List Char :=
  ['%', hexChar (b / 16), hexChar (b % 16)]

/-- Percent-encode every UTF-8 byte of a character. -/
def pctChar (c : Char) : List Char :=
  ((utf8Bytes c).map pctEncode).flatten

/-- Is the character C0 control or non-ASCII (always percent-encoded)? -/
def isCtlHigh (c : Char) : Bool :=
  c.toNat ≤ 0x1F ∨ 0x7F ≤ c.toNat

/-- Membership in the path percent-encode set of the URL standard. -/
def pathEncCond (c : Char) : Bool :=
  isCtlHigh c ∨ c = ' ' ∨ c = '\"' ∨ c = '<' ∨ c = '>' ∨ c = '`' ∨
    c = '#' ∨ c = '?' ∨ c = '\x7b' ∨ c = '\x7d'

/-- The path percent-encode set of the URL standard. -/
def pathEncChar (c : Char) : List Char :=
  if pathEncCond c then pctChar c else [c]

/-- Membership in the special-scheme query percent-encode set. -/
def queryEncCond (c : Char) : Bool :=
  isCtlHigh c ∨ c = ' ' ∨ c = '\"' ∨ c = '#' ∨ c = '<' ∨ c = '>' ∨ c = '\x27'

/-- The special-scheme query percent-encode set of the URL standard. -/
def queryEncChar (c : Char) : List Char :=
  if queryEncCond c then pctChar c else [c]

/-- Membership in the fragment percent-encode set of the URL standard. -/
def fragEncCond (c : Char) : Bool :=
  isCtlHigh c ∨ c = ' ' ∨ c = '\"' ∨ c = '<' ∨ c = '>' ∨ c = '`'

/-- The fragment percent-encode set of the URL standard. -/
def fragEncChar (c : Char) : List Char :=
  if fragEncCond c then pctChar c else [c]

/-- Percent-encode a whole path segment. -/
def pathEncSeg (s : List Char) : List Char :=
  (s.map pathEncChar).flatten

/-- Is the raw segment a single-dot segment (`.` or a percent-encoding of
it, case-insensitively)? -/
def isSingleDot (s : List Char) : Bool :=
  let l := s.map Char.toLower
  l = ['.'] ∨ l = ['%', '2', 'e']

/-- Is the raw segment a double-dot segment? -/
def isDoubleDot (s : List Char) : Bool :=
  let l := s.map Char.toLower
  l = ['.', '.'] ∨ l = ['.', '%', '2', 'e'] ∨ l = ['%', '2', 'e', '.'] ∨
    l = ['%', '2', 'e', '%', '2', 'e']

/-- Process raw path segments: push percent-encoded segments, let a
single dot vanish, let a double dot pop the previous segment, and keep a
trailing slash when the last raw segment was a dot segment. `acc` holds the
output so far, reversed. -/
def processSegs : List (List Char) → List (List Char) → List (List Char)
  | acc, [] => acc.reverse
  | acc, [s] =>
    if isSingleDot s then acc.reverse ++ [[]]
    else if isDoubleDot s then (acc.drop 1).reverse ++ [[]]
    else acc.reverse ++ [pathEncSeg s]
  | acc, s :: rest =>
    if isSingleDot s then processSegs acc rest
    else if isDoubleDot s then processSegs (acc.drop 1) rest
    else processSegs (pathEncSeg s :: acc) rest

/-- `Url::parse` of the fixed base (whose own path splits into `baseSegs`
and ends in a slash) followed by the raw `tail`: trim trailing controls and
space, strip tab and newlines, split off fragment then query, split the
path on slashes and backslashes, and normalize dot segments. -/
def urlParseTail (baseSegs : List (List Char)) (tail : List Char) : UrlRec :=
  let t1 := trimTrailing tail
  let t2 := t1.filter (fun c => ¬(c = '\t' ∨ c = '\n' ∨ c = '\r'))
  let pf := splitFirst '#' t2
  let pq := splitFirst '?' pf.1
  { segments := processSegs [] (baseSegs ++ splitSeps pq.1)
    query := pq.2.map (fun qc => (qc.map queryEncChar).flatten)
    fragment := pf.2.map (fun fc => (fc.map fragEncChar).flatten) }

/-- Characters form-urlencoding leaves unescaped. -/
def formAllowed (c : Char) : Bool :=
  c.isAlphanum ∨ c = '*' ∨ c = '-' ∨ c = '.' ∨ c = '_'

/-- Form-urlencoding of one character, as `append_pair` encodes keys and
values: alphanumerics and `*-._` kept, space becomes `+`, every other UTF-8
byte is percent-encoded. -/
def formEncChar (c : Char) : List Char :=
  if formAllowed c then [c]
  else if c = ' ' then ['+']
  else pctChar c

/-- Form-urlencoding of a string. -/
def formEnc (s : String) : List Char :=
  (s.data.map formEncChar).flatten

/-- One serialized `key=value` pair as `append_pair` emits it. -/
def apPair (k v : String) : List Char :=
  formEnc k ++ '=' :: formEnc v

/-- `url.query_pairs_mut().append_pair(k, v)`: append the encoded pair to
the existing query, with an ampersand when the query is non-empty. -/
def appendPair (u : UrlRec) (k v : String) : UrlRec :=
  { u with
    query := some
      (match u.query with
       | none => apPair k v
       | some q => if q = [] then apPair k v else q ++ '&' :: apPair k v) }

/-- Join path segments with slashes. -/
def joinSep : List (List Char) → List Char
  | [] => []
  | [s] => s
  | s :: rest => s ++ '/' :: joinSep rest

/-- Serialize the URL back to a string. -/
def serializeUrl (u : UrlRec) : String :=
  String.mk ("https://haveibeenpwned.com/".data
    ++ joinSep u.segments
    ++ (match u.query with | none => [] | some q => '?' :: q)
    ++ (match u.fragment with | none => [] | some f => '#' :: f))

/-- clientv2.rs `AccountBreachRequest::build_url`: parse the base with the
raw account appended, then append the optional `domain` pair and the
optional `truncateResponse=true` pair, in that order. -/
def AccountBreachRequest.build_url (account : String) (domain : Option String)
    (truncate : Bool) : UrlRec :=
  let u := urlParseTail ["api".data, "v2".data, "breachedaccount".data]
    account.data
  let u := match domain with
    | some d => appendPair u "domain" d
    | none => u
  if truncate then appendPair u "truncateResponse" "true" else u

/-- clientv2.rs `PasteRequest::build_url`: `Url::from_str` of the base with
the raw account appended; no query pairs. -/
def PasteRequest.build_url (account : String) : UrlRec :=
  urlParseTail ["api".data, "v2".data, "pasteaccount".data] account.data

/-- Occurrences of a character in a string. -/
def countCharStr (c : Char) (s : String) : Nat :=
  s.data.count c

/-- The sixteen uppercase hexadecimal digits. -/
def hexDigits : List Char :=
  "0123456789ABCDEF".data

/-- Does the character list end in something other than a C0 control or
space (so that URL input trimming leaves it unchanged)? -/
def noTrailingWs (cs : List Char) : Bool :=
  match cs.reverse with
  | [] => true
  | c :: _ => 0x20 < c.toNat

/-- Accounts for which the raw-insertion URL composition is
segment-faithful: no path separators, no query or fragment delimiters, no
stripped characters, no trailing trimmed characters and not a dot
segment. -/
def goodAccount (a : String) : Bool :=
  a.data.all (fun c => ¬(c = '/' ∨ c = '\\' ∨ c = '?' ∨ c = '#' ∨
    c = '\t' ∨ c = '\n' ∨ c = '\r'))
  && noTrailingWs a.data
  && !isSingleDot a.data
  && !isDoubleDot a.data

/-! ## Specification predicates used to state the claims -/

/-- How parse_breach treats an optional string field: absent means `none`,
present must be a string. -/
def optStrSpec (m : JObj) (k : String) (o : Option String) : Prop :=
  match List.lookup k m with
  | none => o = none
  | some v => ∃ s, v = .str s ∧ o = some s

/-- How parse_breach treats the optional integer field. -/
def optU64Spec (m : JObj) (k : String) (o : Option Nat) : Prop :=
  match List.lookup k m with
  | none => o = none
  | some v => ∃ n, v.asU64 = some n ∧ o = some n

/-- How parse_breach treats an optional boolean field. -/
def optBoolSpec (m : JObj) (k : String) (o : Option Bool) : Prop :=
  match List.lookup k m with
  | none => o = none
  | some v => ∃ x, v = .bool x ∧ o = some x

/-- How parse_breach treats the optional string-array field. -/
def optDCSpec (m : JObj) (k : String) (o : Option (List String)) : Prop :=
  match List.lookup k m with
  | none => o = none
  | some v => ∃ l ss, v = .arr l ∧ mapE get_serde_string l = .ok ss ∧ o = some ss

/-- Full field-by-field description of a successful Breach decode. -/
def BreachFieldSpec (m : JObj) (b : Breach) : Prop :=
  List.lookup "Name" m = some (.str b.name)
  ∧ optStrSpec m "Title" b.title
  ∧ optStrSpec m "Domain" b.domain
  ∧ optStrSpec m "BreachDate" b.breach_date
  ∧ optStrSpec m "AddedDate" b.added_date
  ∧ optU64Spec m "PwnCount" b.pwn_count
  ∧ optStrSpec m "Description" b.description
  ∧ optDCSpec m "DataClasses" b.data_classes
  ∧ optBoolSpec m "IsVerified" b.is_verified
  ∧ optBoolSpec m "IsSensitive" b.is_sensitive
  ∧ optBoolSpec m "IsRetired" b.is_retired

/-- Full field-by-field description of a successful Paste decode: `Source`,
`Id` and `EmailCount` behave as required typed fields, while `Title` and
`Date` must be present but tolerate any type. -/
def PasteFieldSpec (m : JObj) (p : Paste) : Prop :=
  List.lookup "Source" m = some (.str p.source)
  ∧ List.lookup "Id" m = some (.str p.id)
  ∧ (∃ v, List.lookup "Title" m = some v ∧ p.title = v.asStr)
  ∧ (∃ v, List.lookup "Date" m = some v ∧ p.date = v.asStr)
  ∧ (∃ v, List.lookup "EmailCount" m = some v ∧ v.asU64 = some p.email_count)

/-- The field keys parse_breach looks up. -/
def breachKeys : List String :=
  ["Name", "Title", "Domain", "BreachDate", "AddedDate", "PwnCount",
    "Description", "DataClasses", "IsVerified", "IsSensitive", "IsRetired"]

end HIBP

namespace HIBP

/-! ## Helper lemmas about the Except embedding -/

lemma bind_ok_elim {α β : Type u} {x : Except DecodeErr α}
    {f : α → Except DecodeErr β} {b : β} (h : x >>= f = .ok b) :
    ∃ a, x = .ok a ∧ f a = .ok b := by
  cases x with
  | error e => simp [Bind.bind, Except.bind] at h
  | ok a => exact ⟨a, rfl, by simpa [Bind.bind, Except.bind] using h⟩

lemma bind_error_elim {α β : Type u} {x : Except DecodeErr α}
    {f : α → Except DecodeErr β} {e : DecodeErr} (h : x >>= f = .error e) :
    x = .error e ∨ ∃ a, x = .ok a ∧ f a = .error e := by
  cases x with
  | error e0 =>
    left
    simpa [Bind.bind, Except.bind] using h
  | ok a =>
    right
    exact ⟨a, rfl, by simpa [Bind.bind, Except.bind] using h⟩

lemma pure_ok_elim {α : Type u} {a b : α}
    (h : (pure a : Except DecodeErr α) = .ok b) : a = b := by
  simpa [Pure.pure, Except.pure] using h

lemma get_serde_string_ok {v : Value} {s : String} :
    get_serde_string v = .ok s ↔ v = .str s := by
  cases v <;> simp [get_serde_string, Value.asStr]

lemma get_serde_string_error {v : Value} {e : DecodeErr}
    (h : get_serde_string v = .error e) : e = .notString v := by
  cases v <;> simp [get_serde_string, Value.asStr] at h <;> exact h.symm

lemma get_serde_u64_ok {v : Value} {n : Nat} :
    get_serde_u64 v = .ok n ↔ v.asU64 = some n := by
  unfold get_serde_u64
  cases hv : v.asU64 <;> simp

lemma get_serde_u64_error {v : Value} {e : DecodeErr}
    (h : get_serde_u64 v = .error e) : e = .notU64 v := by
  unfold get_serde_u64 at h
  cases hv : v.asU64 <;> simp [hv] at h
  exact h.symm

lemma get_serde_bool_ok {v : Value} {x : Bool} :
    get_serde_bool v = .ok x ↔ v = .bool x := by
  cases v <;> simp [get_serde_bool, Value.asBool]

lemma get_serde_bool_error {v : Value} {e : DecodeErr}
    (h : get_serde_bool v = .error e) : e = .notBool v := by
  cases v <;> simp [get_serde_bool, Value.asBool] at h <;> exact h.symm

lemma get_serde_array_ok {v : Value} {l : List Value} :
    get_serde_array v = .ok l ↔ v = .arr l := by
  cases v <;> simp [get_serde_array, Value.asArr]

lemma get_serde_array_error {v : Value} {e : DecodeErr}
    (h : get_serde_array v = .error e) : e = .notArray v := by
  cases v <;> simp [get_serde_array, Value.asArr] at h <;> exact h.symm

lemma get_or_err_ok {k : String} {m : JObj} {v : Value} :
    get_or_err k m = .ok v ↔ List.lookup k m = some v := by
  unfold get_or_err
  cases hl : List.lookup k m <;> simp

lemma get_or_err_error {k : String} {m : JObj} {e : DecodeErr}
    (h : get_or_err k m = .error e) :
    e = .missingField k ∧ List.lookup k m = none := by
  unfold get_or_err at h
  cases hl : List.lookup k m with
  | none =>
    rw [hl] at h
    simp at h
    exact ⟨h.symm, rfl⟩
  | some v =>
    rw [hl] at h
    simp at h

lemma get_or_err_of_none {k : String} {m : JObj}
    (h : List.lookup k m = none) : get_or_err k m = .error (.missingField k) := by
  simp [get_or_err, h]

lemma optField_ok {f : Value → Except DecodeErr α} {m : JObj} {k : String}
    {o : Option α} (h : optField f m k = .ok o) :
    (List.lookup k m = none ∧ o = none) ∨
      ∃ v a, List.lookup k m = some v ∧ f v = .ok a ∧ o = some a := by
  unfold optField at h
  split at h
  · rename_i hl
    injection h with h
    exact .inl ⟨hl, h.symm⟩
  · rename_i v hl
    cases hf : f v with
    | error e =>
      rw [hf] at h
      exact absurd h (by simp [Except.map])
    | ok a =>
      rw [hf] at h
      simp [Except.map] at h
      exact .inr ⟨v, a, hl, hf, h.symm⟩

lemma optField_error {f : Value → Except DecodeErr α} {m : JObj} {k : String}
    {e : DecodeErr} (h : optField f m k = .error e) :
    ∃ v, List.lookup k m = some v ∧ f v = .error e := by
  unfold optField at h
  split at h
  · simp at h
  · rename_i v hl
    cases hf : f v with
    | error e0 =>
      rw [hf] at h
      simp [Except.map] at h
      exact ⟨v, hl, by rw [hf, h]⟩
    | ok a =>
      rw [hf] at h
      simp [Except.map] at h

lemma mapE_ok_mem {f : α → Except DecodeErr β} {l : List α} {ys : List β}
    (h : mapE f l = .ok ys) : ∀ x ∈ l, ∃ y, f x = .ok y := by
  induction l generalizing ys with
  | nil => simp
  | cons a as ih =>
    intro x hx
    unfold mapE at h
    obtain ⟨y, hy, h⟩ := bind_ok_elim h
    obtain ⟨zs, hzs, _⟩ := bind_ok_elim h
    rcases List.mem_cons.mp hx with rfl | hx
    · exact ⟨y, hy⟩
    · exact ih hzs x hx

lemma mapE_error {f : α → Except DecodeErr β} {l : List α} {e : DecodeErr}
    (h : mapE f l = .error e) : ∃ x ∈ l, f x = .error e := by
  induction l with
  | nil => simp [mapE, pure, Except.pure] at h
  | cons a as ih =>
    unfold mapE at h
    rcases bind_error_elim h with h1 | ⟨y, _, h1⟩
    · exact ⟨a, by simp, h1⟩
    · rcases bind_error_elim h1 with h2 | ⟨zs, hzs, h2⟩
      · obtain ⟨x, hx, hfx⟩ := ih h2
        exact ⟨x, by simp [hx], hfx⟩
      · simp [pure, Except.pure] at h2

lemma mapE_map_str (l : List String) :
    mapE get_serde_string (l.map Value.str) = .ok l := by
  induction l with
  | nil => rfl
  | cons a as ih =>
    simp [mapE, ih, get_serde_string, Value.asStr, Bind.bind, Except.bind,
      pure, Except.pure]

/-! ## Characterization of parse_breach and parse_paste -/

lemma optStrSpec_of_optField {m : JObj} {k : String} {o : Option String}
    (h : optField get_serde_string m k = .ok o) : optStrSpec m k o := by
  rcases optField_ok h with ⟨hl, rfl⟩ | ⟨v, a, hl, hf, rfl⟩
  · simp [optStrSpec, hl]
  · have hv := get_serde_string_ok.mp hf
    simp only [optStrSpec, hl]
    exact ⟨a, hv, rfl⟩

lemma optU64Spec_of_optField {m : JObj} {k : String} {o : Option Nat}
    (h : optField get_serde_u64 m k = .ok o) : optU64Spec m k o := by
  rcases optField_ok h with ⟨hl, rfl⟩ | ⟨v, a, hl, hf, rfl⟩
  · simp [optU64Spec, hl]
  · have hv := get_serde_u64_ok.mp hf
    simp only [optU64Spec, hl]
    exact ⟨a, hv, rfl⟩

lemma optBoolSpec_of_optField {m : JObj} {k : String} {o : Option Bool}
    (h : optField get_serde_bool m k = .ok o) : optBoolSpec m k o := by
  rcases optField_ok h with ⟨hl, rfl⟩ | ⟨v, a, hl, hf, rfl⟩
  · simp [optBoolSpec, hl]
  · have hv := get_serde_bool_ok.mp hf
    simp only [optBoolSpec, hl]
    exact ⟨a, hv, rfl⟩

lemma optDCSpec_of_optField {m : JObj} {k : String} {o : Option (List String)}
    (h : optField
      (fun dc => do
        let v ← get_serde_array dc
        mapE get_serde_string v) m k = .ok o) : optDCSpec m k o := by
  rcases optField_ok h with ⟨hl, rfl⟩ | ⟨v, a, hl, hf, rfl⟩
  · simp [optDCSpec, hl]
  · obtain ⟨l, hla, hmap⟩ := bind_ok_elim hf
    have hv := get_serde_array_ok.mp hla
    simp only [optDCSpec, hl]
    exact ⟨l, a, hv, hmap, rfl⟩

lemma parse_breach_ok_spec {m : JObj} {b : Breach}
    (h : parse_breach m = .ok b) : BreachFieldSpec m b := by
  unfold parse_breach at h
  obtain ⟨nv, hnv, h⟩ := bind_ok_elim h
  obtain ⟨name, hname, h⟩ := bind_ok_elim h
  obtain ⟨title, htitle, h⟩ := bind_ok_elim h
  obtain ⟨domain, hdomain, h⟩ := bind_ok_elim h
  obtain ⟨breach_date, hbd, h⟩ := bind_ok_elim h
  obtain ⟨added_date, had, h⟩ := bind_ok_elim h
  obtain ⟨pwn_count, hpc, h⟩ := bind_ok_elim h
  obtain ⟨description, hdesc, h⟩ := bind_ok_elim h
  obtain ⟨data_classes, hdc, h⟩ := bind_ok_elim h
  obtain ⟨is_verified, hiv, h⟩ := bind_ok_elim h
  obtain ⟨is_sensitive, his, h⟩ := bind_ok_elim h
  obtain ⟨is_retired, hir, h⟩ := bind_ok_elim h
  have hb := pure_ok_elim h
  subst hb
  have hlname : List.lookup "Name" m = some nv := get_or_err_ok.mp hnv
  have hvname := get_serde_string_ok.mp hname
  subst hvname
  exact ⟨hlname, optStrSpec_of_optField htitle, optStrSpec_of_optField hdomain,
    optStrSpec_of_optField hbd, optStrSpec_of_optField had,
    optU64Spec_of_optField hpc, optStrSpec_of_optField hdesc,
    optDCSpec_of_optField hdc, optBoolSpec_of_optField hiv,
    optBoolSpec_of_optField his, optBoolSpec_of_optField hir⟩

lemma parse_breach_missing_name {m : JObj}
    (h : List.lookup "Name" m = none) :
    parse_breach m = .error (.missingField "Name") := by
  simp [parse_breach, get_or_err, h, Bind.bind, Except.bind]

lemma parse_breach_name_wrong {m : JObj} {v : Value}
    (hl : List.lookup "Name" m = some v) (hs : v.asStr = none) :
    parse_breach m = .error (.notString v) := by
  simp [parse_breach, get_or_err, hl, get_serde_string, hs, Bind.bind,
    Except.bind]

lemma parse_breach_error_shape {m : JObj} {e : DecodeErr}
    (h : parse_breach m = .error e) :
    (e = .missingField "Name" ∧ List.lookup "Name" m = none)
      ∨ (∃ v, e = .notString v) ∨ (∃ v, e = .notU64 v)
      ∨ (∃ v, e = .notBool v) ∨ (∃ v, e = .notArray v) := by
  unfold parse_breach at h
  rcases bind_error_elim h with h | ⟨nv, hnv, h⟩
  · exact .inl ⟨(get_or_err_error h).1, (get_or_err_error h).2⟩
  rcases bind_error_elim h with h | ⟨name, _, h⟩
  · exact .inr (.inl ⟨nv, get_serde_string_error h⟩)
  rcases bind_error_elim h with h | ⟨title, _, h⟩
  · obtain ⟨v, _, hf⟩ := optField_error h
    exact .inr (.inl ⟨v, get_serde_string_error hf⟩)
  rcases bind_error_elim h with h | ⟨domain, _, h⟩
  · obtain ⟨v, _, hf⟩ := optField_error h
    exact .inr (.inl ⟨v, get_serde_string_error hf⟩)
  rcases bind_error_elim h with h | ⟨breach_date, _, h⟩
  · obtain ⟨v, _, hf⟩ := optField_error h
    exact .inr (.inl ⟨v, get_serde_string_error hf⟩)
  rcases bind_error_elim h with h | ⟨added_date, _, h⟩
  · obtain ⟨v, _, hf⟩ := optField_error h
    exact .inr (.inl ⟨v, get_serde_string_error hf⟩)
  rcases bind_error_elim h with h | ⟨pwn_count, _, h⟩
  · obtain ⟨v, _, hf⟩ := optField_error h
    exact .inr (.inr (.inl ⟨v, get_serde_u64_error hf⟩))
  rcases bind_error_elim h with h | ⟨description, _, h⟩
  · obtain ⟨v, _, hf⟩ := optField_error h
    exact .inr (.inl ⟨v, get_serde_string_error hf⟩)
  rcases bind_error_elim h with h | ⟨data_classes, _, h⟩
  · obtain ⟨v, _, hf⟩ := optField_error h
    rcases bind_error_elim hf with hf2 | ⟨l, _, hf2⟩
    · exact .inr (.inr (.inr (.inr ⟨v, get_serde_array_error hf2⟩)))
    · obtain ⟨x, _, hx⟩ := mapE_error hf2
      exact .inr (.inl ⟨x, get_serde_string_error hx⟩)
  rcases bind_error_elim h with h | ⟨is_verified, _, h⟩
  · obtain ⟨v, _, hf⟩ := optField_error h
    exact .inr (.inr (.inr (.inl ⟨v, get_serde_bool_error hf⟩)))
  rcases bind_error_elim h with h | ⟨is_sensitive, _, h⟩
  · obtain ⟨v, _, hf⟩ := optField_error h
    exact .inr (.inr (.inr (.inl ⟨v, get_serde_bool_error hf⟩)))
  rcases bind_error_elim h with h | ⟨is_retired, _, h⟩
  · obtain ⟨v, _, hf⟩ := optField_error h
    exact .inr (.inr (.inr (.inl ⟨v, get_serde_bool_error hf⟩)))
  simp [pure, Except.pure] at h

lemma parse_paste_ok_spec {m : JObj} {p : Paste}
    (h : parse_paste m = .ok p) : PasteFieldSpec m p := by
  unfold parse_paste at h
  obtain ⟨sv, hsv, h⟩ := bind_ok_elim h
  obtain ⟨source, hsource, h⟩ := bind_ok_elim h
  obtain ⟨iv, hiv, h⟩ := bind_ok_elim h
  obtain ⟨id, hid, h⟩ := bind_ok_elim h
  obtain ⟨titleV, htv, h⟩ := bind_ok_elim h
  obtain ⟨dateV, hdv, h⟩ := bind_ok_elim h
  obtain ⟨ev, hev, h⟩ := bind_ok_elim h
  obtain ⟨email_count, hec, h⟩ := bind_ok_elim h
  have hp := pure_ok_elim h
  subst hp
  have h1 := get_or_err_ok.mp hsv
  have h2 := get_serde_string_ok.mp hsource
  subst h2
  have h3 := get_or_err_ok.mp hiv
  have h4 := get_serde_string_ok.mp hid
  subst h4
  exact ⟨h1, h3, ⟨titleV, get_or_err_ok.mp htv, rfl⟩,
    ⟨dateV, get_or_err_ok.mp hdv, rfl⟩,
    ⟨ev, get_or_err_ok.mp hev, get_serde_u64_ok.mp hec⟩⟩

lemma parse_paste_missing_source {m : JObj}
    (h : List.lookup "Source" m = none) :
    parse_paste m = .error (.missingField "Source") := by
  simp [parse_paste, get_or_err, h, Bind.bind, Except.bind]

lemma optStrSpec_not_null {m : JObj} {k : String} {o : Option String}
    (h : optStrSpec m k o) : List.lookup k m ≠ some Value.null := by
  intro hl
  simp only [optStrSpec, hl] at h
  obtain ⟨s, hs, -⟩ := h
  exact Value.noConfusion hs

lemma optU64Spec_not_null {m : JObj} {k : String} {o : Option Nat}
    (h : optU64Spec m k o) : List.lookup k m ≠ some Value.null := by
  intro hl
  simp only [optU64Spec, hl] at h
  obtain ⟨n, hn, -⟩ := h
  simp [Value.asU64] at hn

lemma optBoolSpec_not_null {m : JObj} {k : String} {o : Option Bool}
    (h : optBoolSpec m k o) : List.lookup k m ≠ some Value.null := by
  intro hl
  simp only [optBoolSpec, hl] at h
  obtain ⟨x, hx, -⟩ := h
  exact Value.noConfusion hx

lemma optDCSpec_not_null {m : JObj} {k : String} {o : Option (List String)}
    (h : optDCSpec m k o) : List.lookup k m ≠ some Value.null := by
  intro hl
  simp only [optDCSpec, hl] at h
  obtain ⟨l, ss, hv, -, -⟩ := h
  exact Value.noConfusion hv

/-- Sanity check: the scenario of spec section 8 decodes as specified. -/
lemma breaches_from_str_adobe_example :
    breaches_from_str
        "\x7b\"Name\":\"Adobe\",\"PwnCount\":152445165,\"IsVerified\":true\x7d"
      = .ok [⟨"Adobe", none, none, none, none, some 152445165, none, none,
          some true, none, none⟩] := rfl

/-! ## Claim theorems: decoding -/

/-- Claim C1 (corrected). The breach decoder normalizes a single top-level
object and its one-element-array wrapping to the same result, and a
successful single-object decode is a one-element sequence. The paste
decoder does not normalize: a single top-level object is always an
improperly-formatted-response failure. -/
theorem claim_C1_theorem :
    (∀ (s1 s2 : String) (m : JObj),
      breachesFromValue s1 (.obj m) = breachesFromValue s2 (.arr [.obj m]))
    ∧ (∀ (s : String) (m : JObj) (l : List Breach),
      breachesFromValue s (.obj m) = .ok l → l.length = 1)
    ∧ (∀ (s : String) (m : JObj),
      pastesFromValue s (.obj m) = .error (.badShape s)) := by
  refine ⟨?_, ?_, ?_⟩
  · intro s1 s2 m
    cases hp : parse_breach m <;>
      simp [breachesFromValue, Value.asArr, Value.asObject, mapO, mapE, hp,
        Except.map, Bind.bind, Except.bind, pure, Except.pure, Option.bind]
  · intro s m l h
    simp only [breachesFromValue, Value.asArr, Value.asObject] at h
    cases hp : parse_breach m with
    | error e => rw [hp] at h; simp [Except.map] at h
    | ok b =>
      rw [hp] at h
      simp [Except.map] at h
      simp [← h]
  · intro s m
    rfl

/-- Witness for C1 at a concrete input. -/
theorem claim_C1_witness :
    breachesFromValue "x" (.obj [("Name", Value.str "Adobe")])
        = .ok [⟨"Adobe", none, none, none, none, none, none, none, none,
            none, none⟩]
    ∧ ([(⟨"Adobe", none, none, none, none, none, none, none, none, none,
        none⟩ : Breach)]).length = 1 :=
  ⟨rfl, claim_C1_theorem.2.1 "x" [("Name", Value.str "Adobe")] _ rfl⟩

/-- Counterexample to C1 as stated: on the paste path a valid single JSON
object is rejected, while the same object wrapped in a one-element array
decodes. -/
theorem claim_C1_counterexample :
    pastes_from_str
        "\x7b\"Source\":\"s\",\"Id\":\"i\",\"Title\":null,\"Date\":null,\"EmailCount\":1\x7d"
      = .error (.badShape
        "\x7b\"Source\":\"s\",\"Id\":\"i\",\"Title\":null,\"Date\":null,\"EmailCount\":1\x7d")
    ∧ pastes_from_str
        "[\x7b\"Source\":\"s\",\"Id\":\"i\",\"Title\":null,\"Date\":null,\"EmailCount\":1\x7d]"
      = .ok [⟨"s", "i", none, none, 1⟩] :=
  ⟨rfl, rfl⟩

/-- Claim C2 (corrected). For Breach every optional field behaves as the
claim says: an absent optional field never fails the decode (a
missing-field error can only name `Name`), and a successful decode records
absent fields as `none` and forces present fields to the right type. For
Paste, however, `Title` and `Date` must be present (absence of either is a
missing-field decode failure) and a present value of the wrong type does
not fail: the decode succeeds with the field recorded as `asStr` of the
value, which is not-present for any non-string. -/
theorem claim_C2_theorem :
    (∀ (m : JObj) (k : String),
      parse_breach m = .error (.missingField k) → k = "Name")
    ∧ (∀ (m : JObj) (b : Breach), parse_breach m = .ok b → BreachFieldSpec m b)
    ∧ (∀ (m : JObj) (p : Paste), parse_paste m = .ok p → PasteFieldSpec m p)
    ∧ (∀ m : JObj, List.lookup "Title" m = none →
        ∀ p : Paste, parse_paste m ≠ .ok p)
    ∧ (∀ (m : JObj) (tv dv ev : Value) (s i : String) (n : Nat),
        List.lookup "Source" m = some (.str s) →
        List.lookup "Id" m = some (.str i) →
        List.lookup "Title" m = some tv →
        List.lookup "Date" m = some dv →
        List.lookup "EmailCount" m = some ev →
        Value.asU64 ev = some n →
        parse_paste m = .ok ⟨s, i, tv.asStr, dv.asStr, n⟩)
    ∧ (∀ (m : JObj) (tv : Value) (s i : String),
        List.lookup "Source" m = some (.str s) →
        List.lookup "Id" m = some (.str i) →
        List.lookup "Title" m = some tv →
        List.lookup "Date" m = none →
        parse_paste m = .error (.missingField "Date")) := by
  refine ⟨?_, ?_, ?_, ?_, ?_, ?_⟩
  · intro m k h
    rcases parse_breach_error_shape h with ⟨he, -⟩ | ⟨v, he⟩ | ⟨v, he⟩ |
      ⟨v, he⟩ | ⟨v, he⟩ <;> cases he
    rfl
  · intro m b h
    exact parse_breach_ok_spec h
  · intro m p h
    exact parse_paste_ok_spec h
  · intro m hT p hok
    obtain ⟨v, hv, -⟩ := (parse_paste_ok_spec hok).2.2.1
    rw [hT] at hv
    exact Option.noConfusion hv
  · intro m tv dv ev s i n h1 h2 h3 h4 h5 h6
    simp [parse_paste, get_or_err, h1, h2, h3, h4, h5, get_serde_string,
      Value.asStr, get_serde_u64, h6, Bind.bind, Except.bind, pure,
      Except.pure]
  · intro m tv s i h1 h2 h3 h4
    simp [parse_paste, get_or_err, h1, h2, h3, h4, get_serde_string,
      Value.asStr, Bind.bind, Except.bind]

/-- Witness for C2 at concrete inputs: a Breach with only `Name`; a Paste
whose `Title` is a boolean and whose `Date` is a number, which decodes
successfully with both recorded as not-present; and a Paste without `Date`,
which fails naming `Date`. -/
theorem claim_C2_witness :
    BreachFieldSpec [("Name", Value.str "Adobe")]
      ⟨"Adobe", none, none, none, none, none, none, none, none, none, none⟩
    ∧ parse_paste [("Date", Value.num (.int 3)),
        ("EmailCount", Value.num (.int 7)), ("Id", Value.str "i"),
        ("Source", Value.str "s"), ("Title", Value.bool true)]
      = .ok ⟨"s", "i", none, none, 7⟩
    ∧ parse_paste [("Id", Value.str "i"), ("Source", Value.str "s"),
        ("Title", Value.bool true)]
      = .error (.missingField "Date") :=
  ⟨claim_C2_theorem.2.1 [("Name", Value.str "Adobe")] _ rfl,
    claim_C2_theorem.2.2.2.2.1 _ (Value.bool true) (Value.num (.int 3))
      (Value.num (.int 7)) "s" "i" 7 rfl rfl rfl rfl rfl rfl,
    claim_C2_theorem.2.2.2.2.2 _ (Value.bool true) "s" "i" rfl rfl rfl rfl⟩

/-- Counterexample to C2 as stated: `Title` is an optional Paste field, yet
a paste object without it fails to decode instead of recording the field as
not present. -/
theorem claim_C2_counterexample :
    parse_paste [("EmailCount", Value.num (.int 1)), ("Id", Value.str "i"),
        ("Source", Value.str "s")]
      = .error (.missingField "Title") := rfl

/-- Claim C3 (corrected). A missing required field fails with an error that
identifies the field name but carries no value; a wrongly-typed field fails
with an error that carries the offending value but no field name. The code
never produces an error containing both. -/
theorem claim_C3_theorem :
    (∀ m : JObj, List.lookup "Name" m = none →
      parse_breach m = .error (.missingField "Name")
      ∧ DecodeErr.fieldName? (.missingField "Name") = some "Name"
      ∧ DecodeErr.offendingValue? (.missingField "Name") = none)
    ∧ (∀ (m : JObj) (v : Value), List.lookup "Name" m = some v →
      Value.asStr v = none →
      parse_breach m = .error (.notString v)
      ∧ DecodeErr.offendingValue? (.notString v) = some v
      ∧ DecodeErr.fieldName? (.notString v) = none)
    ∧ (∀ m : JObj, List.lookup "Source" m = none →
      parse_paste m = .error (.missingField "Source"))
    ∧ (∀ (m : JObj) (e : DecodeErr), parse_breach m = .error e →
      DecodeErr.fieldName? e = none ∨ DecodeErr.offendingValue? e = none) := by
  refine ⟨?_, ?_, ?_, ?_⟩
  · intro m h
    exact ⟨parse_breach_missing_name h, rfl, rfl⟩
  · intro m v hl hs
    exact ⟨parse_breach_name_wrong hl hs, rfl, rfl⟩
  · intro m h
    exact parse_paste_missing_source h
  · intro m e h
    rcases parse_breach_error_shape h with ⟨he, -⟩ | ⟨v, he⟩ | ⟨v, he⟩ |
      ⟨v, he⟩ | ⟨v, he⟩ <;> subst he
    · exact .inr rfl
    all_goals exact .inl rfl

/-- Witness for C3 at concrete inputs. -/
theorem claim_C3_witness :
    parse_breach [] = .error (.missingField "Name")
    ∧ parse_breach [("Name", Value.bool true)]
        = .error (.notString (.bool true)) :=
  ⟨(claim_C3_theorem.1 [] rfl).1,
    (claim_C3_theorem.2.1 [("Name", Value.bool true)] (.bool true) rfl rfl).1⟩

/-- Counterexample to C3 as stated: a wrongly-typed `Name` fails with an
error that identifies no field name at all. -/
theorem claim_C3_counterexample :
    parse_breach [("Name", Value.num (.int 42))]
      = .error (.notString (.num (.int 42)))
    ∧ DecodeErr.fieldName? (.notString (.num (.int 42))) = none :=
  ⟨rfl, rfl⟩

/-- Claim C4 (corrected). `Name` must be present (and a string): decoding
fails when the key is absent, and every decoded Breach took its name from
the `Name` string. But the empty string is accepted as a name, so the
non-emptiness half of the claim does not hold. -/
theorem claim_C4_theorem :
    (∀ m : JObj, List.lookup "Name" m = none →
      parse_breach m = .error (.missingField "Name"))
    ∧ (∀ (m : JObj) (b : Breach), parse_breach m = .ok b →
      List.lookup "Name" m = some (.str b.name))
    ∧ parse_breach [("Name", Value.str "")]
        = .ok ⟨"", none, none, none, none, none, none, none, none, none,
            none⟩ := by
  refine ⟨?_, ?_, rfl⟩
  · intro m h
    exact parse_breach_missing_name h
  · intro m b h
    exact (parse_breach_ok_spec h).1

/-- Witness for C4 at a concrete input. -/
theorem claim_C4_witness :
    parse_breach [] = .error (.missingField "Name") :=
  claim_C4_theorem.1 [] rfl

/-- Counterexample to C4 as stated: a Breach whose `Name` value is the
empty string decodes successfully. -/
theorem claim_C4_counterexample :
    parse_breach [("Name", Value.str "")]
      = .ok ⟨"", none, none, none, none, none, none, none, none, none,
          none⟩ := rfl

/-- Claim C5 (corrected). A JSON null in any Breach field is never
collapsed to "not present": no successful Breach decode has a null under
any of the keys the decoder reads, because null fails every typed
conversion. -/
theorem claim_C5_theorem :
    ∀ (m : JObj) (b : Breach), parse_breach m = .ok b →
      ∀ k ∈ breachKeys, List.lookup k m ≠ some Value.null := by
  intro m b h k hk
  have spec := parse_breach_ok_spec h
  obtain ⟨h1, h2, h3, h4, h5, h6, h7, h8, h9, h10, h11⟩ := spec
  simp only [breachKeys, List.mem_cons, List.not_mem_nil, or_false] at hk
  rcases hk with rfl | rfl | rfl | rfl | rfl | rfl | rfl | rfl | rfl | rfl | rfl
  · intro hl
    rw [hl] at h1
    simp at h1
  · exact optStrSpec_not_null h2
  · exact optStrSpec_not_null h3
  · exact optStrSpec_not_null h4
  · exact optStrSpec_not_null h5
  · exact optU64Spec_not_null h6
  · exact optStrSpec_not_null h7
  · exact optDCSpec_not_null h8
  · exact optBoolSpec_not_null h9
  · exact optBoolSpec_not_null h10
  · exact optBoolSpec_not_null h11

/-- Witness for C5 at a concrete input. -/
theorem claim_C5_witness :
    List.lookup "Title" [("Name", Value.str "Adobe")] ≠ some Value.null :=
  claim_C5_theorem [("Name", Value.str "Adobe")]
    ⟨"Adobe", none, none, none, none, none, none, none, none, none, none⟩
    rfl "Title" (by simp [breachKeys])

/-- Counterexample to C5 as stated: a null `Title` does not decode like an
absent `Title`; it is a type failure. -/
theorem claim_C5_counterexample :
    parse_breach [("Name", Value.str "x"), ("Title", Value.null)]
      = .error (.notString .null) := rfl

/-- Claim C8 (confirmed). A zero-length paste response body decodes to the
empty sequence; the JSON parser is not consulted, as parsing the same body
would fail. -/
theorem claim_C8_theorem :
    ∀ r : String, r.length = 0 →
      PasteRequest.decode_body r = .ok []
      ∧ pastes_from_str r = .error (.parsePastesFailed r) := by
  intro r h
  have hd : r.data = [] := List.length_eq_zero.mp h
  cases r with
  | mk d =>
    simp only [String.data] at hd
    subst hd
    exact ⟨rfl, rfl⟩

/-- Witness for C8 at the empty body. -/
theorem claim_C8_witness :
    PasteRequest.decode_body "" = .ok []
    ∧ pastes_from_str "" = .error (.parsePastesFailed "") :=
  claim_C8_theorem "" rfl

/-- Claim C9 (confirmed). A top-level array of strings decodes to exactly
that list in order; a non-array top level fails, and an array containing a
non-string element cannot decode successfully. -/
theorem claim_C9_theorem :
    (∀ l : List String, dataClassesFromValue (.arr (l.map Value.str)) = .ok l)
    ∧ (∀ v : Value, Value.asArr v = none →
      dataClassesFromValue v = .error (.dataClassNotArray v))
    ∧ (∀ (vs : List Value) (v : Value), v ∈ vs → Value.asStr v = none →
      ∀ l : List String, dataClassesFromValue (.arr vs) ≠ .ok l) := by
  refine ⟨?_, ?_, ?_⟩
  · intro l
    simp only [dataClassesFromValue, Value.asArr]
    exact mapE_map_str l
  · intro v hv
    simp [dataClassesFromValue, hv]
  · intro vs v hv hs l h
    simp only [dataClassesFromValue, Value.asArr] at h
    obtain ⟨y, hy⟩ := mapE_ok_mem h v hv
    rw [get_serde_string_ok] at hy
    rw [hy] at hs
    simp [Value.asStr] at hs

/-- Witness for C9 at concrete inputs, including the spec examples. -/
theorem claim_C9_witness :
    dataClassesFromValue (Value.num (.int 1))
        = .error (.dataClassNotArray (Value.num (.int 1)))
    ∧ dataClassesFromValue (.arr [Value.num (.int 1), Value.num (.int 2)])
        ≠ .ok ["Email addresses"]
    ∧ DataClassRequest.decode_body "[\"Email addresses\",\"Passwords\"]"
        = .ok ["Email addresses", "Passwords"] :=
  ⟨claim_C9_theorem.2.1 _ rfl,
    claim_C9_theorem.2.2 [Value.num (.int 1), Value.num (.int 2)]
      (Value.num (.int 1)) (by simp) rfl ["Email addresses"],
    rfl⟩

/-- Claim C10 (confirmed). Decoding breaches from the empty string is a
parse failure; the empty-body special case exists only on the paste path. -/
theorem claim_C10_theorem :
    breaches_from_str "" = .error (.parseBreachesFailed "") := rfl

/-! ## Helper lemmas about the URL model -/

lemma splitFirst_of_not_mem {sep : Char} {cs : List Char} (h : sep ∉ cs) :
    splitFirst sep cs = (cs, none) := by
  induction cs with
  | nil => rfl
  | cons c cs ih =>
    rw [List.mem_cons, not_or] at h
    simp [splitFirst, Ne.symm (Ne.intro h.1), ih h.2]

lemma splitFirst_fst_subset {sep : Char} {cs : List Char} :
    ∀ x ∈ (splitFirst sep cs).1, x ∈ cs := by
  induction cs with
  | nil => simp [splitFirst]
  | cons c cs ih =>
    intro x hx
    by_cases hc : c = sep
    · simp [splitFirst, hc] at hx
    · simp only [splitFirst, if_neg hc] at hx
      rcases List.mem_cons.mp hx with rfl | hx
      · exact List.mem_cons_self x cs
      · exact List.mem_cons_of_mem c (ih x hx)

lemma splitFirst_snd_subset {sep : Char} {cs bs : List Char}
    (h : (splitFirst sep cs).2 = some bs) : ∀ x ∈ bs, x ∈ cs := by
  induction cs generalizing bs with
  | nil => simp [splitFirst] at h
  | cons c cs ih =>
    by_cases hc : c = sep
    · simp only [splitFirst, if_pos hc] at h
      cases h
      exact fun x hx => List.mem_cons_of_mem c hx
    · simp only [splitFirst, if_neg hc] at h
      exact fun x hx => List.mem_cons_of_mem c (ih h x hx)

lemma trimTrailing_subset {cs : List Char} :
    ∀ x ∈ trimTrailing cs, x ∈ cs := by
  intro x hx
  unfold trimTrailing at hx
  rw [List.mem_reverse] at hx
  have := (List.dropWhile_sublist (l := cs.reverse)
    (p := fun c => c.toNat ≤ 0x20)).subset hx
  exact List.mem_reverse.mp this

lemma trimTrailing_of_noTrailingWs {cs : List Char}
    (h : noTrailingWs cs = true) : trimTrailing cs = cs := by
  unfold noTrailingWs at h
  unfold trimTrailing
  cases hr : cs.reverse with
  | nil =>
    have : cs = [] := List.reverse_eq_nil_iff.mp hr
    simp [this]
  | cons c rest =>
    rw [hr] at h
    simp only [decide_eq_true_eq] at h
    have hdw : List.dropWhile (fun x : Char => decide (x.toNat ≤ 0x20))
        (c :: rest) = c :: rest := by
      rw [List.dropWhile_cons_of_neg]
      simp only [decide_eq_true_eq]
      omega
    rw [hdw, ← hr, List.reverse_reverse]

lemma splitSeps_of_not_mem {cs : List Char}
    (h : ∀ c ∈ cs, ¬(c = '/' ∨ c = '\\')) : splitSeps cs = [cs] := by
  induction cs with
  | nil => rfl
  | cons c cs ih =>
    have hc := h c (List.mem_cons_self c cs)
    have hrest := ih (fun x hx => h x (List.mem_cons_of_mem c hx))
    simp [splitSeps, hc, hrest]

lemma splitChar_of_not_mem {sep : Char} {cs : List Char} (h : sep ∉ cs) :
    splitChar sep cs = [cs] := by
  induction cs with
  | nil => rfl
  | cons c cs ih =>
    rw [List.mem_cons, not_or] at h
    simp [splitChar, Ne.symm (Ne.intro h.1), ih h.2]

lemma splitChar_ne_nil {sep : Char} {cs : List Char} :
    splitChar sep cs ≠ [] := by
  cases cs with
  | nil => simp [splitChar]
  | cons c cs =>
    unfold splitChar
    by_cases hc : c = sep
    · simp [hc]
    · simp only [if_neg hc]
      cases splitChar sep cs <;> simp

lemma splitChar_cons_self (sep : Char) (cs : List Char) :
    splitChar sep (sep :: cs) = [] :: splitChar sep cs := by
  simp [splitChar]

lemma splitChar_cons_of_ne {sep a : Char} (h : ¬a = sep)
    (cs : List Char) :
    splitChar sep (a :: cs)
      = match splitChar sep cs with
        | s :: ss => (a :: s) :: ss
        | [] => [[a]] := by
  simp only [splitChar, if_neg h]

lemma splitChar_append (sep : Char) (as bs : List Char) :
    splitChar sep (as ++ sep :: bs) = splitChar sep as ++ splitChar sep bs := by
  induction as with
  | nil =>
    rw [List.nil_append, splitChar_cons_self]
    rfl
  | cons a as ih =>
    by_cases ha : a = sep
    · subst ha
      rw [List.cons_append]
      simp only [splitChar_cons_self, ih]
      rfl
    · rw [List.cons_append]
      simp only [splitChar_cons_of_ne ha, ih]
      cases hs : splitChar sep as with
      | nil => exact absurd hs splitChar_ne_nil
      | cons s ss => simp [hs]

lemma hexChar_mem (n : Nat) : hexChar n ∈ hexDigits := by
  unfold hexChar hexDigits
  rcases Nat.lt_or_ge n 16 with h | h
  · interval_cases n <;> decide
  · rw [List.getD_eq_default]
    · decide
    · simpa using h

/-- Every character a percent-escape emits. -/
lemma pctEncode_mem {x : Char} {b : Nat} (hx : x ∈ pctEncode b) :
    x = '%' ∨ x ∈ hexDigits := by
  unfold pctEncode at hx
  rcases List.mem_cons.mp hx with rfl | hx
  · exact .inl rfl
  rcases List.mem_cons.mp hx with rfl | hx
  · exact .inr (hexChar_mem _)
  rcases List.mem_cons.mp hx with rfl | hx
  · exact .inr (hexChar_mem _)
  · simp at hx

/-- Every character a percent-encoded character expands to. -/
lemma pctChar_mem {x c : Char} (hx : x ∈ pctChar c) :
    x = '%' ∨ x ∈ hexDigits := by
  unfold pctChar at hx
  obtain ⟨l, hl, hxl⟩ := List.mem_flatten.mp hx
  obtain ⟨b, -, rfl⟩ := List.mem_map.mp hl
  exact pctEncode_mem hxl

lemma pathEncChar_mem {x c : Char} (hx : x ∈ pathEncChar c) :
    (x = c ∧ pathEncCond c = false) ∨ x = '%' ∨ x ∈ hexDigits := by
  unfold pathEncChar at hx
  by_cases h : pathEncCond c
  · rw [if_pos h] at hx
    exact .inr (pctChar_mem hx)
  · rw [if_neg h] at hx
    simp at hx
    exact .inl ⟨hx, by simpa using h⟩

lemma queryEncChar_mem {x c : Char} (hx : x ∈ queryEncChar c) :
    (x = c ∧ queryEncCond c = false) ∨ x = '%' ∨ x ∈ hexDigits := by
  unfold queryEncChar at hx
  by_cases h : queryEncCond c
  · rw [if_pos h] at hx
    exact .inr (pctChar_mem hx)
  · rw [if_neg h] at hx
    simp at hx
    exact .inl ⟨hx, by simpa using h⟩

lemma fragEncChar_mem {x c : Char} (hx : x ∈ fragEncChar c) :
    (x = c ∧ fragEncCond c = false) ∨ x = '%' ∨ x ∈ hexDigits := by
  unfold fragEncChar at hx
  by_cases h : fragEncCond c
  · rw [if_pos h] at hx
    exact .inr (pctChar_mem hx)
  · rw [if_neg h] at hx
    simp at hx
    exact .inl ⟨hx, by simpa using h⟩

lemma formEncChar_mem {x c : Char} (hx : x ∈ formEncChar c) :
    (x = c ∧ formAllowed c = true) ∨ x = '+' ∨ x = '%' ∨ x ∈ hexDigits := by
  unfold formEncChar at hx
  by_cases h : formAllowed c
  · rw [if_pos h] at hx
    simp at hx
    exact .inl ⟨hx, h⟩
  · rw [if_neg h] at hx
    by_cases hsp : c = ' '
    · rw [if_pos hsp] at hx
      simp at hx
      exact .inr (.inl hx)
    · rw [if_neg hsp] at hx
      exact .inr (.inr (pctChar_mem hx))

lemma qmark_not_mem_pathEncChar (c : Char) : '?' ∉ pathEncChar c := by
  intro hx
  rcases pathEncChar_mem hx with ⟨rfl, hc⟩ | h | hx
  · exact absurd hc (by decide)
  · exact absurd h (by decide)
  · exact absurd hx (by decide)

lemma qmark_not_mem_pathEncSeg (s : List Char) : '?' ∉ pathEncSeg s := by
  intro hx
  unfold pathEncSeg at hx
  obtain ⟨l, hl, hxl⟩ := List.mem_flatten.mp hx
  obtain ⟨c, -, rfl⟩ := List.mem_map.mp hl
  exact qmark_not_mem_pathEncChar c hxl

lemma slash_not_mem_pathEncSeg {s : List Char} (h : '/' ∉ s) :
    '/' ∉ pathEncSeg s := by
  intro hx
  unfold pathEncSeg at hx
  obtain ⟨l, hl, hxl⟩ := List.mem_flatten.mp hx
  obtain ⟨c, hc, rfl⟩ := List.mem_map.mp hl
  rcases pathEncChar_mem hxl with ⟨rfl, -⟩ | heq | hxl
  · exact h hc
  · exact absurd heq (by decide)
  · exact absurd hxl (by decide)

lemma qmark_not_mem_queryEncChar {c : Char} (hc : c ≠ '?') :
    '?' ∉ queryEncChar c := by
  intro hx
  rcases queryEncChar_mem hx with ⟨rfl, -⟩ | h | hx
  · exact hc rfl
  · exact absurd h (by decide)
  · exact absurd hx (by decide)

lemma qmark_not_mem_fragEncChar {c : Char} (hc : c ≠ '?') :
    '?' ∉ fragEncChar c := by
  intro hx
  rcases fragEncChar_mem hx with ⟨rfl, -⟩ | h | hx
  · exact hc rfl
  · exact absurd h (by decide)
  · exact absurd hx (by decide)

lemma formEncChar_avoids {x c : Char}
    (hx : x ∈ formEncChar c) : x ≠ '&' ∧ x ≠ '?' := by
  rcases formEncChar_mem hx with ⟨rfl, hc⟩ | rfl | rfl | hx
  · constructor <;> rintro rfl <;> exact absurd hc (by decide)
  · exact ⟨by decide, by decide⟩
  · exact ⟨by decide, by decide⟩
  · constructor <;> rintro rfl <;> exact absurd hx (by decide)

lemma amp_not_mem_formEnc (s : String) : '&' ∉ formEnc s := by
  intro hx
  unfold formEnc at hx
  obtain ⟨l, hl, hxl⟩ := List.mem_flatten.mp hx
  obtain ⟨c, -, rfl⟩ := List.mem_map.mp hl
  exact (formEncChar_avoids hxl).1 rfl

lemma qmark_not_mem_formEnc (s : String) : '?' ∉ formEnc s := by
  intro hx
  unfold formEnc at hx
  obtain ⟨l, hl, hxl⟩ := List.mem_flatten.mp hx
  obtain ⟨c, -, rfl⟩ := List.mem_map.mp hl
  exact (formEncChar_avoids hxl).2 rfl

lemma amp_not_mem_apPair (k v : String) : '&' ∉ apPair k v := by
  intro hx
  unfold apPair at hx
  rcases List.mem_append.mp hx with hx | hx
  · exact amp_not_mem_formEnc k hx
  · rcases List.mem_cons.mp hx with h | hx
    · exact absurd h (by decide)
    · exact amp_not_mem_formEnc v hx

lemma qmark_not_mem_apPair (k v : String) : '?' ∉ apPair k v := by
  intro hx
  unfold apPair at hx
  rcases List.mem_append.mp hx with hx | hx
  · exact qmark_not_mem_formEnc k hx
  · rcases List.mem_cons.mp hx with h | hx
    · exact absurd h (by decide)
    · exact qmark_not_mem_formEnc v hx

lemma apPair_ne_nil (v : String) : apPair "domain" v ≠ [] := by
  have hd : apPair "domain" v = 'd' :: ("omain".data ++ '=' :: formEnc v) := rfl
  simp [hd]

lemma processSegs_no_qmark :
    ∀ (segs acc : List (List Char)), (∀ s ∈ acc, '?' ∉ s) →
      ∀ s ∈ processSegs acc segs, '?' ∉ s := by
  intro segs
  induction segs with
  | nil =>
    intro acc hacc s hs
    simp only [processSegs] at hs
    exact hacc s (List.mem_reverse.mp hs)
  | cons a rest ih =>
    intro acc hacc s hs
    cases rest with
    | nil =>
      simp only [processSegs] at hs
      by_cases h1 : isSingleDot a
      · rw [if_pos h1] at hs
        rcases List.mem_append.mp hs with hs | hs
        · exact hacc s (List.mem_reverse.mp hs)
        · simp only [List.mem_singleton] at hs
          subst hs
          simp
      · rw [if_neg h1] at hs
        by_cases h2 : isDoubleDot a
        · rw [if_pos h2] at hs
          rcases List.mem_append.mp hs with hs | hs
          · exact hacc s (List.drop_subset 1 acc (List.mem_reverse.mp hs))
          · simp only [List.mem_singleton] at hs
            subst hs
            simp
        · rw [if_neg h2] at hs
          rcases List.mem_append.mp hs with hs | hs
          · exact hacc s (List.mem_reverse.mp hs)
          · simp only [List.mem_singleton] at hs
            subst hs
            exact qmark_not_mem_pathEncSeg a
    | cons b bs =>
      simp only [processSegs] at hs
      by_cases h1 : isSingleDot a
      · rw [if_pos h1] at hs
        exact ih acc hacc s hs
      · rw [if_neg h1] at hs
        by_cases h2 : isDoubleDot a
        · rw [if_pos h2] at hs
          exact ih _ (fun x hx => hacc x (List.drop_subset 1 acc hx)) s hs
        · rw [if_neg h2] at hs
          refine ih _ (fun x hx => ?_) s hs
          rcases List.mem_cons.mp hx with rfl | hx
          · exact qmark_not_mem_pathEncSeg a
          · exact hacc x hx

lemma joinSep_no_qmark {segs : List (List Char)}
    (h : ∀ s ∈ segs, '?' ∉ s) : '?' ∉ joinSep segs := by
  induction segs with
  | nil => simp [joinSep]
  | cons s rest ih =>
    cases rest with
    | nil =>
      simp only [joinSep]
      exact h s (List.mem_singleton.mpr rfl)
    | cons t ts =>
      simp only [joinSep]
      intro hx
      rcases List.mem_append.mp hx with hx | hx
      · exact h s (List.mem_cons_self s _) hx
      · rcases List.mem_cons.mp hx with heq | hx
        · exact absurd heq (by decide)
        · exact ih (fun x hxx => h x (List.mem_cons_of_mem s hxx)) hx

lemma qmark_not_mem_fragEnc {f : List Char} (h : '?' ∉ f) :
    '?' ∉ (f.map fragEncChar).flatten := by
  intro hx
  obtain ⟨l, hl, hxl⟩ := List.mem_flatten.mp hx
  obtain ⟨c, hc, rfl⟩ := List.mem_map.mp hl
  exact qmark_not_mem_fragEncChar (fun hce => h (hce ▸ hc)) hxl

/-- Appending the domain pair and then the truncation pair always yields a
query whose ampersand-split list ends with the two encoded pairs, in that
order. -/
lemma appended_query (u : UrlRec) (d : String) :
    ∃ q, (appendPair (appendPair u "domain" d) "truncateResponse" "true").query
        = some q
      ∧ List.IsSuffix [apPair "domain" d, apPair "truncateResponse" "true"]
          (splitChar '&' q) := by
  cases hq : u.query with
  | none =>
    refine ⟨apPair "domain" d ++ '&' :: apPair "truncateResponse" "true",
      ?_, ?_⟩
    · simp [appendPair, hq, apPair_ne_nil d]
    · rw [splitChar_append, splitChar_of_not_mem (amp_not_mem_apPair _ _),
        splitChar_of_not_mem (amp_not_mem_apPair _ _)]
      exact List.suffix_refl _
  | some q0 =>
    by_cases h0 : q0 = []
    · subst h0
      refine ⟨apPair "domain" d ++ '&' :: apPair "truncateResponse" "true",
        ?_, ?_⟩
      · simp [appendPair, hq, apPair_ne_nil d]
      · rw [splitChar_append, splitChar_of_not_mem (amp_not_mem_apPair _ _),
          splitChar_of_not_mem (amp_not_mem_apPair _ _)]
        exact List.suffix_refl _
    · refine ⟨q0 ++ '&' :: (apPair "domain" d
          ++ '&' :: apPair "truncateResponse" "true"), ?_, ?_⟩
      · have hne : q0 ++ '&' :: apPair "domain" d ≠ [] := by simp
        simp [appendPair, hq, h0, hne]
      · rw [splitChar_append, splitChar_append,
          splitChar_of_not_mem (amp_not_mem_apPair _ _),
          splitChar_of_not_mem (amp_not_mem_apPair _ _)]
        exact List.suffix_append _ _

lemma urlParseTail_segments_no_qmark (b : List (List Char)) (t : List Char) :
    ∀ s ∈ (urlParseTail b t).segments, '?' ∉ s := by
  simp only [urlParseTail]
  exact processSegs_no_qmark _ [] (by simp)

lemma urlParseTail_no_qmark {b : List (List Char)} {t : List Char}
    (h : '?' ∉ t) :
    (urlParseTail b t).query = none
    ∧ ∀ f, (urlParseTail b t).fragment = some f → '?' ∉ f := by
  have ht2 : '?' ∉ (trimTrailing t).filter
      (fun c => ¬(c = '\t' ∨ c = '\n' ∨ c = '\r')) := by
    intro hx
    exact h (trimTrailing_subset _ (List.mem_filter.mp hx).1)
  constructor
  · simp only [urlParseTail]
    rw [splitFirst_of_not_mem (fun hx => ht2 (splitFirst_fst_subset _ hx))]
    rfl
  · intro f hf
    simp only [urlParseTail] at hf
    cases hpf : (splitFirst '#' ((trimTrailing t).filter
        (fun c => ¬(c = '\t' ∨ c = '\n' ∨ c = '\r')))).2 with
    | none => rw [hpf] at hf; simp at hf
    | some fc =>
      rw [hpf] at hf
      simp only [Option.map] at hf
      cases hf
      exact qmark_not_mem_fragEnc
        (fun hx => ht2 (splitFirst_snd_subset hpf '?' hx))

/-! ## Claim theorems: URL composition -/

/-- Claim C6 (corrected). With a domain set and truncation enabled, the
composed URL always carries the encoded `domain` pair followed by
`truncateResponse=true` as the final two query parameters, in that stable
order, and composition is deterministic. The URL contains exactly one
question mark whenever the account contains none; an account containing
question marks keeps them, so the claim fails in general. -/
theorem claim_C6_theorem :
    ∀ (account domain : String),
      (∃ q, (AccountBreachRequest.build_url account (some domain) true).query
          = some q
        ∧ List.IsSuffix
            [apPair "domain" domain, apPair "truncateResponse" "true"]
            (splitChar '&' q))
      ∧ apPair "truncateResponse" "true" = "truncateResponse=true".data
      ∧ ('?' ∉ account.data →
        countCharStr '?' (serializeUrl
          (AccountBreachRequest.build_url account (some domain) true)) = 1)
      ∧ serializeUrl (AccountBreachRequest.build_url account (some domain) true)
          = serializeUrl
            (AccountBreachRequest.build_url account (some domain) true) := by
  intro account domain
  refine ⟨?_, rfl, ?_, rfl⟩
  · have h := appended_query
      (urlParseTail ["api".data, "v2".data, "breachedaccount".data]
        account.data) domain
    simpa [AccountBreachRequest.build_url] using h
  · intro hq
    obtain ⟨hqnone, hfrag⟩ := urlParseTail_no_qmark
      (b := ["api".data, "v2".data, "breachedaccount".data]) hq
    have hQ : (AccountBreachRequest.build_url account (some domain) true).query
        = some (apPair "domain" domain
            ++ '&' :: apPair "truncateResponse" "true") := by
      simp [AccountBreachRequest.build_url, appendPair, hqnone,
        apPair_ne_nil domain]
    have hSeg : (AccountBreachRequest.build_url account
          (some domain) true).segments
        = (urlParseTail ["api".data, "v2".data, "breachedaccount".data]
            account.data).segments := by
      simp [AccountBreachRequest.build_url, appendPair]
    have hFrag : (AccountBreachRequest.build_url account
          (some domain) true).fragment
        = (urlParseTail ["api".data, "v2".data, "breachedaccount".data]
            account.data).fragment := by
      simp [AccountBreachRequest.build_url, appendPair]
    have hcsegs : (joinSep (AccountBreachRequest.build_url account
        (some domain) true).segments).count '?' = 0 :=
      List.count_eq_zero.mpr (joinSep_no_qmark (fun s hs =>
        urlParseTail_segments_no_qmark _ _ s (hSeg ▸ hs)))
    have hcd : (apPair "domain" domain).count '?' = 0 :=
      List.count_eq_zero.mpr (qmark_not_mem_apPair _ _)
    have hct : (apPair "truncateResponse" "true").count '?' = 0 :=
      List.count_eq_zero.mpr (qmark_not_mem_apPair _ _)
    cases hf : (AccountBreachRequest.build_url account
        (some domain) true).fragment with
    | none =>
      simp [countCharStr, serializeUrl, hQ, hf, List.count_append,
        List.count_cons, hcsegs, hcd, hct]
    | some f =>
      have hcf : f.count '?' = 0 :=
        List.count_eq_zero.mpr (hfrag f (hFrag ▸ hf))
      simp [countCharStr, serializeUrl, hQ, hf, List.count_append,
        List.count_cons, hcsegs, hcd, hct, hcf]

/-- Witness for C6 at a concrete account and domain. -/
theorem claim_C6_witness :
    countCharStr '?' (serializeUrl (AccountBreachRequest.build_url
      "test@example.com" (some "example.com") true)) = 1 :=
  ( claim_C6_theorem "test@example.com" "example.com").2.2.1 (by decide)

/-- Counterexample to C6 as stated: an account containing question marks
yields a composed URL with more than one question mark. -/
theorem claim_C6_counterexample :
    countCharStr '?' (serializeUrl (AccountBreachRequest.build_url
      "a?b?c" (some "example.com") true)) = 2 := rfl

/-- Claim C7 (corrected). The account is inserted verbatim and the whole
string is then parsed as a URL: for an account free of the structural
delimiters and trimmed or stripped characters, and that is not a dot
segment, the account occupies exactly one path segment after the base, in
percent-encoded form, on both the account-breach and the paste composer.
In general the delimiters keep their URL meaning, so the claim fails. -/
theorem claim_C7_theorem :
    ∀ account : String, goodAccount account = true →
      (AccountBreachRequest.build_url account none false).segments
          = ["api".data, "v2".data, "breachedaccount".data,
              pathEncSeg account.data]
      ∧ (PasteRequest.build_url account).segments
          = ["api".data, "v2".data, "pasteaccount".data,
              pathEncSeg account.data]
      ∧ '/' ∉ pathEncSeg account.data := by
  intro account hgood
  simp only [goodAccount, Bool.and_eq_true, Bool.not_eq_true',
    List.all_eq_true, decide_eq_true_eq] at hgood
  obtain ⟨⟨⟨hall, hnt⟩, hsd⟩, hdd⟩ := hgood
  have h1 := trimTrailing_of_noTrailingWs hnt
  have h2 : List.filter (fun c => ¬(c = '\t' ∨ c = '\n' ∨ c = '\r'))
      account.data = account.data := by
    rw [List.filter_eq_self]
    intro c hc
    have := hall c hc
    simp only [decide_eq_true_eq]
    tauto
  have h3 : splitFirst '#' account.data = (account.data, none) :=
    splitFirst_of_not_mem (fun hx => (hall '#' hx) (by simp))
  have h4 : splitFirst '?' account.data = (account.data, none) :=
    splitFirst_of_not_mem (fun hx => (hall '?' hx) (by simp))
  have h5 : splitSeps account.data = [account.data] :=
    splitSeps_of_not_mem (fun c hc hor => (hall c hc) (by tauto))
  have hslash : '/' ∉ account.data := fun hx => (hall '/' hx) (by simp)
  have d1 : isSingleDot "api".data = false := by decide
  have d2 : isDoubleDot "api".data = false := by decide
  have d3 : isSingleDot "v2".data = false := by decide
  have d4 : isDoubleDot "v2".data = false := by decide
  have d5 : isSingleDot "breachedaccount".data = false := by decide
  have d6 : isDoubleDot "breachedaccount".data = false := by decide
  have d7 : isSingleDot "pasteaccount".data = false := by decide
  have d8 : isDoubleDot "pasteaccount".data = false := by decide
  have e1 : pathEncSeg "api".data = "api".data := by decide
  have e2 : pathEncSeg "v2".data = "v2".data := by decide
  have e3 : pathEncSeg "breachedaccount".data = "breachedaccount".data := by
    decide
  have e4 : pathEncSeg "pasteaccount".data = "pasteaccount".data := by decide
  refine ⟨?_, ?_, slash_not_mem_pathEncSeg hslash⟩
  · simp only [AccountBreachRequest.build_url, urlParseTail, h1, h2, h3, h4, h5]
    simp [processSegs, hsd, hdd, d1, d2, d3, d4, d5, d6, e1, e2, e3]
  · simp only [PasteRequest.build_url, urlParseTail, h1, h2, h3, h4, h5]
    simp [processSegs, hsd, hdd, d1, d2, d7, d8, e1, e2, e4, d3, d4]

/-- Witness for C7 at a concrete account. -/
theorem claim_C7_witness :
    (AccountBreachRequest.build_url "test@example.com" none false).segments
      = ["api".data, "v2".data, "breachedaccount".data,
          pathEncSeg "test@example.com".data] :=
  ( claim_C7_theorem "test@example.com" rfl).1

/-- Counterexample to C7 as stated: a slash in the account splits it over
two path segments on both composers, so the account does not occupy
exactly the path segment after the base path. -/
theorem claim_C7_counterexample :
    (AccountBreachRequest.build_url "a/b" none false).segments
        = ["api".data, "v2".data, "breachedaccount".data, "a".data, "b".data]
    ∧ ((AccountBreachRequest.build_url "a/b" none false).segments.drop 3).length
        = 2
    ∧ ((PasteRequest.build_url "a/b").segments.drop 3).length = 2 :=
  ⟨rfl, rfl, rfl⟩

end HIBP

